import Mathlib

/-!
# RayLink (Raplink) pipeline — verification development

A shallow embedding of the aggregation pipeline of `main.py` and `utils.py`:
the per-channel scraper (`ChannelScraper.scrape_channel`), the concurrent
fan-in (`ChannelScraper.scrape_all_channels`), the forwarding interface
(`NamiraInterface.send_links`), the control flow of `main`, and the channel
list reader (`read_channels_from_file`).

Python dicts keyed by protocol name are embedded as association lists
`List (String × List String)` in insertion order, so that statements about
which keys a bucket has are meaningful.  The modules `duplicate`, `extractor`,
`scrapper` and `manager` are not part of the given sources; the deduplicator
is modelled from the spec (§4.1) and the extractor and content source are kept
abstract parameters.
-/

namespace RayLink

/-- A Python dict mapping protocol names to lists of descriptor strings,
in insertion order. -/
abbrev LinkBucket := List (String × List String)

/-- The five protocol keys, in the order the code writes the literal dict. -/
def protocols : List String := ["vmess", "vless", "ss", "trojan", "ssr"]

/-- The literal `{"vmess": [], "vless": [], "ss": [], "trojan": [], "ssr": []}`
from `main.py` lines 48, 67 and 74. -/
def emptyLinks : LinkBucket :=
  [("vmess", []), ("vless", []), ("ss", []), ("trojan", []), ("ssr", [])]

/-- Python dict read `d[p]` (defaulting to `[]` when the key is absent;
every dict the pipeline builds carries all five keys). -/
def lookupD : LinkBucket → String → List String
  | [], _ => []
  | e :: rest, p => if e.1 = p then e.2 else lookupD rest p

/-- The key sequence of a bucket, in insertion order. -/
def bucketKeys (b : LinkBucket) : List String := b.map Prod.fst

/-- The loop `for protocol in acc: acc[protocol].extend(links[protocol])`
(`main.py` lines 53-54 and 78-79): every sequence of `acc` is extended by the
same protocol's sequence from `links`. -/
def extendAll (acc links : LinkBucket) : LinkBucket :=
  acc.map (fun e => (e.1, e.2 ++ lookupD links e.1))

/-- One-pass first-occurrence filter with an accumulated seen set. -/
def dedupeFrom (seen : List String) : List String → List String
  | [] => []
  | s :: rest =>
    if s ∈ seen then dedupeFrom seen rest
    else s :: dedupeFrom (s :: seen) rest

/-- Modelled from the spec: the module `duplicate` (class `DuplicateChecker`,
method `deduplicate_links`) is not among the given sources.  Spec §4.1: "For
each protocol independently, walk the sequence once, keep a string only on its
first occurrence (exact string equality, no normalization), drop subsequent
repeats, preserve the relative order of kept entries", using a seen-set. -/
def deduplicate_links (b : LinkBucket) : LinkBucket :=
  b.map (fun e => (e.1, dedupeFrom [] e.2))

/-- Position of the first occurrence of `s` (Python `list.index`): the length
of the list when `s` is absent. -/
def firstIdx (s : String) : List String → Nat
  | [] => 0
  | t :: rest => if t = s then 0 else firstIdx s rest + 1

/-! ## Channel Worker (`ChannelScraper.scrape_channel`, `main.py` 41-67) -/

/-- The extractor collaborator (`extractor.VPNLinkExtractor.extract_links`,
module not among the given sources): given a post's text it either returns a
per-protocol bucket of matched links or raises. -/
abbrev Extractor := String → Except String LinkBucket

/-- One Telegram post: `None` when the post lacks a `content` attribute or its
content is falsy `None`; otherwise its text (possibly empty). -/
abbrev Post := Option String

/-- The fetch `scrapper.TelegramChannelScraper(channel).get_items()`: the
channel's ordered posts, or the exception the fetch raised. -/
abbrev FetchResult := Except String (List Post)

/-- The extraction loop of `scrape_channel` (`main.py` 50-54): for every post
with non-empty content, extend each protocol's running list by the extractor's
matches; propagate any exception the extractor raises. -/
def collectLinks (extract : Extractor) : List Post → LinkBucket → Except String LinkBucket
  | [], acc => .ok acc
  | none :: rest, acc => collectLinks extract rest acc
  | some c :: rest, acc =>
    if c = "" then collectLinks extract rest acc
    else
      match extract c with
      | .ok links => collectLinks extract rest (extendAll acc links)
      | .error e => .error e

/-- The body of the `try:` block of `scrape_channel` (`main.py` 43-63):
fetch, extract into a fresh bucket, then the local dedup pass. -/
def scrape_channel_run (extract : Extractor) (fetch : FetchResult) :
    Except String LinkBucket :=
  match fetch with
  | .error e => .error e
  | .ok items =>
    match collectLinks extract items emptyLinks with
    | .ok acc => .ok (deduplicate_links acc)
    | .error e => .error e

/-- `scrape_channel` (`main.py` 41-67): any exception from the body is caught
and the all-empty bucket is returned (lines 65-67). -/
def scrape_channel (extract : Extractor) (fetch : FetchResult) : LinkBucket :=
  match scrape_channel_run extract fetch with
  | .ok b => b
  | .error _ => emptyLinks

/-! ## Aggregator (`ChannelScraper.scrape_all_channels`, `main.py` 69-84)

`asyncio.gather(*tasks, return_exceptions=True)` places each task's value at
the task's submission index regardless of the order in which the scheduler
completes the tasks.  The scheduler is modelled by an explicit completion
order: a list of task indices, each write storing that task's value in its
own slot of the result array. -/

/-- The result array built by the event loop: slots are written in completion
order `order`, slot `j` always receiving task `j`'s own value. -/
def gatherRun (outs : List LinkBucket) (order : List Nat) : List (Option LinkBucket) :=
  order.foldl (fun arr j => arr.set j (some (outs.getD j emptyLinks)))
    (List.replicate outs.length none)

/-- The merge loop's guard `if isinstance(result, dict)` (`main.py` 77):
slots that hold no dict are skipped. -/
def collectResults : List (Option LinkBucket) → List LinkBucket
  | [] => []
  | some b :: rest => b :: collectResults rest
  | none :: rest => collectResults rest

/-- `scrape_all_channels` (`main.py` 69-84): gather every channel's outcome,
merge them protocol-wise into a fresh bucket in result order, then the global
dedup pass.  `order` is the scheduler's completion order of the workers. -/
def scrape_all_channels (extract : Extractor) (fetches : List FetchResult)
    (order : List Nat) : LinkBucket :=
  let outs := fetches.map (scrape_channel extract)
  let results := collectResults (gatherRun outs order)
  deduplicate_links (results.foldl (fun acc r => extendAll acc r) emptyLinks)

/-! ## Forwarder (`NamiraInterface.send_links`, `main.py` 128-158) -/

/-- Python `repr` of a string without quotes or escapes in it:
`'` then the characters then `'`. -/
def pyReprStr (s : String) : String := "\x27" ++ s ++ "\x27"

/-- Python `str` of a list of plain strings: `['a', 'b']`. -/
def pyReprList (l : List String) : String :=
  "[" ++ String.intercalate ", " (l.map pyReprStr) ++ "]"

/-- `links_content = "\n".join(str(link) for link in links_dict.values())`
(`main.py` 131): the `str` of each protocol's whole list, newline-joined. -/
def links_content (links_dict : LinkBucket) : String :=
  String.intercalate "\n" (links_dict.map (fun e => pyReprList e.2))

/-- Follows the spec's words (§6, "Flattened export artifact" and "Outbound
forward request"): the newline-joined sequence of the individual descriptor
strings across all protocols. -/
def spec_flattened_body (b : LinkBucket) : String :=
  String.intercalate "\n" (b.map Prod.snd).flatten

/-- One multipart form field as `aiohttp.FormData.add_field` receives it. -/
structure FormField where
  fieldName : String
  filename : String
  contentType : String
  body : String
  deriving DecidableEq, Repr

/-- The upload built by `send_links` (`main.py` 131-142): one field named
`file`, filename `links.txt`, content-type `text/plain`, body
`links_content`. -/
def send_links_request (links_dict : LinkBucket) : FormField :=
  { fieldName := "file"
    filename := "links.txt"
    contentType := "text/plain"
    body := links_content links_dict }

/-- The HTTP response of the forward POST: its status code, and the outcome of
parsing its body as JSON (the parsed value kept abstract as a string). -/
structure HttpResp where
  status : Nat
  json : Except String String

/-- What `send_links` returns and whether its error branch logged
(`main.py` 144-158): `none` models the empty dict `{}`. -/
structure SendOutcome where
  result : Option String
  errorLogged : Bool
  deriving DecidableEq, Repr

/-- The response handling of `send_links` (`main.py` 144-158): a transport
error, a non-200 status, or a JSON parse failure each logs and yields `{}`;
status 200 with a JSON body yields the parsed body.  The function is total:
no branch propagates an exception. -/
def send_links_response (resp : Except String HttpResp) : SendOutcome :=
  match resp with
  | .error _ => { result := none, errorLogged := true }
  | .ok r =>
    if r.status = 200 then
      match r.json with
      | .ok j => { result := some j, errorLogged := false }
      | .error _ => { result := none, errorLogged := true }
    else { result := none, errorLogged := true }

/-! ## `main` control flow (`main.py` 209-239) -/

/-- The externally visible steps `main` can take after the scrape. -/
inductive Action where
  | warnZero
  | save
  | exportLinks
  | forward
  | logSuccess
  deriving DecidableEq, Repr

/-- `sum(len(v) for v in links.values())` (`main.py` 213). -/
def totalLinks (b : LinkBucket) : Nat := (b.map (fun e => e.2.length)).sum

/-- The straight-line control flow of `main` after the scrape (`main.py`
213-239): zero total links warns and returns before any sink is touched;
otherwise save, export, and unless `--export-only`, forward then log
success.  Returning a list of actions models a normal return. -/
def mainRun (links : LinkBucket) (exportOnly : Bool) : List Action :=
  if totalLinks links = 0 then [Action.warnZero]
  else if exportOnly then [Action.save, Action.exportLinks]
  else [Action.save, Action.exportLinks, Action.forward, Action.logSuccess]

/-! ## Channel list reader (`utils.py`) -/

/-- Drop leading and trailing whitespace characters of a character list. -/
def stripChars (l : List Char) : List Char :=
  ((l.dropWhile Char.isWhitespace).reverse.dropWhile Char.isWhitespace).reverse

/-- Python `str.strip()` with no argument: drop leading and trailing
whitespace characters. -/
def pyStrip (s : String) : String := String.mk (stripChars s.data)

/-- `read_channels_from_file` (`utils.py`): the file is either its list of
lines or the exception opening/reading it raised (`FileNotFoundError` and any
other error both return `[]`).  The comprehension
`[line.strip() for line in f if line.strip()]` keeps the stripped form of
every line whose stripped form is non-empty. -/
def read_channels_from_file (file : Except String (List String)) : List String :=
  match file with
  | .error _ => []
  | .ok lines => lines.filterMap (fun line =>
      if pyStrip line = "" then none else some (pyStrip line))

/-! ## Lemmas on the deduplicator -/

theorem mem_dedupeFrom {x : String} :
    ∀ (seen l : List String), x ∈ dedupeFrom seen l ↔ x ∈ l ∧ x ∉ seen := by
  intro seen l
  induction l generalizing seen with
  | nil => simp [dedupeFrom]
  | cons s rest ih =>
    by_cases hs : s ∈ seen
    · rw [dedupeFrom, if_pos hs, ih]
      constructor
      · rintro ⟨hl, hn⟩
        exact ⟨List.mem_cons_of_mem _ hl, hn⟩
      · rintro ⟨hl, hn⟩
        rcases List.mem_cons.mp hl with rfl | hl
        · exact absurd hs hn
        · exact ⟨hl, hn⟩
    · rw [dedupeFrom, if_neg hs]
      constructor
      · intro hx
        rcases List.mem_cons.mp hx with rfl | hx
        · exact ⟨List.mem_cons_self _ _, hs⟩
        · rcases (ih _).mp hx with ⟨hl, hn⟩
          refine ⟨List.mem_cons_of_mem _ hl, fun hmem => hn ?_⟩
          exact List.mem_cons_of_mem _ hmem
      · rintro ⟨hl, hn⟩
        rcases List.mem_cons.mp hl with rfl | hl
        · exact List.mem_cons_self _ _
        · by_cases hxs : x = s
          · subst hxs; exact List.mem_cons_self _ _
          · refine List.mem_cons_of_mem _ ((ih _).mpr ⟨hl, ?_⟩)
            intro hmem
            rcases List.mem_cons.mp hmem with h | h
            · exact hxs h
            · exact hn h

theorem nodup_dedupeFrom : ∀ (seen l : List String), (dedupeFrom seen l).Nodup := by
  intro seen l
  induction l generalizing seen with
  | nil => simp [dedupeFrom]
  | cons s rest ih =>
    by_cases hs : s ∈ seen
    · rw [dedupeFrom, if_pos hs]; exact ih seen
    · rw [dedupeFrom, if_neg hs]
      refine List.Nodup.cons (fun hmem => ?_) (ih _)
      exact ((mem_dedupeFrom _ _).mp hmem).2 (List.mem_cons_self _ _)

theorem sublist_dedupeFrom : ∀ (seen l : List String), (dedupeFrom seen l).Sublist l := by
  intro seen l
  induction l generalizing seen with
  | nil => simp [dedupeFrom]
  | cons s rest ih =>
    by_cases hs : s ∈ seen
    · rw [dedupeFrom, if_pos hs]; exact (ih seen).cons s
    · rw [dedupeFrom, if_neg hs]; exact (ih (s :: seen)).cons₂ s

theorem dedupeFrom_eq_self :
    ∀ (seen l : List String), l.Nodup → (∀ x ∈ l, x ∉ seen) → dedupeFrom seen l = l := by
  intro seen l hnd hdisj
  induction l generalizing seen with
  | nil => rfl
  | cons s rest ih =>
    rw [dedupeFrom, if_neg (hdisj s (List.mem_cons_self _ _))]
    refine congrArg (s :: ·) (ih (s :: seen) (List.Nodup.of_cons hnd) ?_)
    intro x hx hmem
    rcases List.mem_cons.mp hmem with rfl | h
    · exact (List.nodup_cons.mp hnd).1 hx
    · exact hdisj x (List.mem_cons_of_mem _ hx) h

theorem dedupeFrom_idem (l : List String) :
    dedupeFrom [] (dedupeFrom [] l) = dedupeFrom [] l :=
  dedupeFrom_eq_self [] _ (nodup_dedupeFrom [] l) (by simp)

theorem firstIdx_cons (x s : String) (l : List String) :
    firstIdx x (s :: l) = if s = x then 0 else firstIdx x l + 1 := rfl

theorem firstIdx_lt_iff_dedupeFrom :
    ∀ (seen l : List String) (a c : String),
      a ∈ dedupeFrom seen l → c ∈ dedupeFrom seen l →
      (firstIdx a (dedupeFrom seen l) < firstIdx c (dedupeFrom seen l) ↔
        firstIdx a l < firstIdx c l) := by
  intro seen l
  induction l generalizing seen with
  | nil => intro a c ha _; simp [dedupeFrom] at ha
  | cons s rest ih =>
    intro a c ha hc
    by_cases hs : s ∈ seen
    · rw [dedupeFrom, if_pos hs] at ha hc ⊢
      have hna : a ≠ s := fun h => ((mem_dedupeFrom _ _).mp ha).2 (h ▸ hs)
      have hnc : c ≠ s := fun h => ((mem_dedupeFrom _ _).mp hc).2 (h ▸ hs)
      rw [firstIdx_cons a, firstIdx_cons c, if_neg (fun h => hna h.symm),
        if_neg (fun h => hnc h.symm), Nat.add_lt_add_iff_right]
      exact ih seen a c ha hc
    · rw [dedupeFrom, if_neg hs] at ha hc ⊢
      by_cases hsa : s = a <;> by_cases hsc : s = c
      · rw [firstIdx_cons a, if_pos hsa, firstIdx_cons c, if_pos hsc,
          firstIdx_cons a, if_pos hsa, firstIdx_cons c, if_pos hsc]
      · rw [firstIdx_cons a, if_pos hsa, firstIdx_cons c, if_neg hsc,
          firstIdx_cons a, if_pos hsa, firstIdx_cons c, if_neg hsc]
        simp
      · rw [firstIdx_cons a, if_neg hsa, firstIdx_cons c, if_pos hsc,
          firstIdx_cons a, if_neg hsa, firstIdx_cons c, if_pos hsc]
        simp
      · have ha' : a ∈ dedupeFrom (s :: seen) rest := by
          rcases List.mem_cons.mp ha with h | h
          · exact absurd h.symm hsa
          · exact h
        have hc' : c ∈ dedupeFrom (s :: seen) rest := by
          rcases List.mem_cons.mp hc with h | h
          · exact absurd h.symm hsc
          · exact h
        rw [firstIdx_cons a, if_neg hsa, firstIdx_cons c, if_neg hsc,
          firstIdx_cons a, if_neg hsa, firstIdx_cons c, if_neg hsc,
          Nat.add_lt_add_iff_right, Nat.add_lt_add_iff_right]
        exact ih (s :: seen) a c ha' hc'

/-! ## Lemmas on buckets and the merge -/

theorem bucketKeys_extendAll (acc links : LinkBucket) :
    bucketKeys (extendAll acc links) = bucketKeys acc := by
  unfold bucketKeys extendAll
  rw [List.map_map]
  rfl

theorem bucketKeys_deduplicate (b : LinkBucket) :
    bucketKeys (deduplicate_links b) = bucketKeys b := by
  unfold bucketKeys deduplicate_links
  rw [List.map_map]
  rfl

theorem lookupD_extendAll (acc links : LinkBucket) (p : String)
    (hp : p ∈ bucketKeys acc) :
    lookupD (extendAll acc links) p = lookupD acc p ++ lookupD links p := by
  induction acc with
  | nil => simp [bucketKeys] at hp
  | cons e rest ih =>
    by_cases he : e.1 = p
    · subst he
      simp [extendAll, lookupD]
    · rw [extendAll, List.map_cons]
      rw [lookupD, if_neg he, lookupD, if_neg he]
      rcases List.mem_cons.mp hp with h | h
      · exact absurd h.symm he
      · exact ih h

theorem lookupD_deduplicate (b : LinkBucket) (p : String) :
    lookupD (deduplicate_links b) p = dedupeFrom [] (lookupD b p) := by
  induction b with
  | nil => rfl
  | cons e rest ih =>
    rw [deduplicate_links, List.map_cons]
    by_cases he : e.1 = p
    · rw [lookupD, if_pos he, lookupD, if_pos he]
    · rw [lookupD, if_neg he, lookupD, if_neg he]
      exact ih

theorem bucketKeys_foldl_extendAll (results : List LinkBucket) :
    ∀ acc : LinkBucket,
      bucketKeys (results.foldl (fun a r => extendAll a r) acc) = bucketKeys acc := by
  induction results with
  | nil => intro acc; rfl
  | cons r rest ih =>
    intro acc
    rw [List.foldl_cons, ih, bucketKeys_extendAll]

theorem lookupD_foldl_extendAll (p : String) (results : List LinkBucket) :
    ∀ acc : LinkBucket, p ∈ bucketKeys acc →
      lookupD (results.foldl (fun a r => extendAll a r) acc) p =
        lookupD acc p ++ (results.map (fun r => lookupD r p)).flatten := by
  induction results with
  | nil => intro acc _; simp
  | cons r rest ih =>
    intro acc hp
    rw [List.foldl_cons, List.map_cons, List.flatten_cons,
      ih (extendAll acc r) (by rw [bucketKeys_extendAll]; exact hp),
      lookupD_extendAll acc r p hp, List.append_assoc]

/-! ## Lemmas on the gather model -/

theorem length_foldl_set (f : Nat → Option LinkBucket) (order : List Nat) :
    ∀ arr : List (Option LinkBucket),
      (order.foldl (fun a j => a.set j (f j)) arr).length = arr.length := by
  induction order with
  | nil => intro arr; rfl
  | cons j rest ih =>
    intro arr
    rw [List.foldl_cons, ih, List.length_set]

theorem getElem?_foldl_set (f : Nat → Option LinkBucket) (order : List Nat) :
    ∀ (arr : List (Option LinkBucket)) (k : Nat),
      (order.foldl (fun a j => a.set j (f j)) arr)[k]? =
        if k ∈ order ∧ k < arr.length then some (f k) else arr[k]? := by
  induction order with
  | nil => intro arr k; simp
  | cons j rest ih =>
    intro arr k
    rw [List.foldl_cons, ih (arr.set j (f j)) k, List.length_set, List.getElem?_set]
    by_cases h1 : k ∈ rest ∧ k < arr.length
    · rw [if_pos h1, if_pos ⟨List.mem_cons_of_mem _ h1.1, h1.2⟩]
    · rw [if_neg h1]
      by_cases hjk : j = k
      · subst hjk
        by_cases hlen : j < arr.length
        · rw [if_pos rfl, if_pos hlen, if_pos ⟨List.mem_cons_self _ _, hlen⟩]
        · rw [if_pos rfl, if_neg hlen, if_neg (fun h => hlen h.2),
            List.getElem?_eq_none (by omega)]
      · rw [if_neg hjk]
        by_cases h2 : k ∈ j :: rest ∧ k < arr.length
        · exfalso
          rcases List.mem_cons.mp h2.1 with h | h
          · exact hjk h.symm
          · exact h1 ⟨h, h2.2⟩
        · rw [if_neg h2]

theorem gatherRun_perm (outs : List LinkBucket) (order : List Nat)
    (hperm : order.Perm (List.range outs.length)) :
    gatherRun outs order = outs.map some := by
  apply List.ext_getElem?
  intro k
  rw [gatherRun, getElem?_foldl_set (fun j => some (outs.getD j emptyLinks)) order]
  rw [List.length_replicate]
  have hmem : k ∈ order ↔ k < outs.length := by
    rw [hperm.mem_iff, List.mem_range]
  by_cases hk : k < outs.length
  · rw [if_pos ⟨hmem.mpr hk, hk⟩, List.getElem?_map, List.getElem?_eq_getElem hk,
      Option.map, List.getD_eq_getElem outs emptyLinks hk]
  · rw [if_neg (fun h => hk h.2),
      List.getElem?_eq_none (by rw [List.length_replicate]; omega),
      List.getElem?_eq_none (by rw [List.length_map]; omega)]

theorem collectResults_map_some (outs : List LinkBucket) :
    collectResults (outs.map some) = outs := by
  induction outs with
  | nil => rfl
  | cons b rest ih => rw [List.map_cons, collectResults, ih]

theorem bucketKeys_collectLinks (extract : Extractor) :
    ∀ (items : List Post) (acc acc' : LinkBucket),
      collectLinks extract items acc = .ok acc' → bucketKeys acc' = bucketKeys acc := by
  intro items
  induction items with
  | nil =>
    intro acc acc' h
    simp only [collectLinks] at h
    cases h
    rfl
  | cons post rest ih =>
    intro acc acc' h
    match post with
    | none =>
      simp only [collectLinks] at h
      exact ih acc acc' h
    | some c =>
      simp only [collectLinks] at h
      by_cases hc : c = ""
      · rw [if_pos hc] at h
        exact ih acc acc' h
      · rw [if_neg hc] at h
        cases hext : extract c with
        | ok links =>
          rw [hext] at h
          rw [ih _ _ h, bucketKeys_extendAll]
        | error e =>
          rw [hext] at h
          cases h

theorem bucketKeys_scrape_channel (extract : Extractor) (fetch : FetchResult) :
    bucketKeys (scrape_channel extract fetch) = protocols := by
  cases fetch with
  | error e => rfl
  | ok items =>
    cases hcol : collectLinks extract items emptyLinks with
    | ok acc =>
      simp only [scrape_channel, scrape_channel_run, hcol]
      rw [bucketKeys_deduplicate, bucketKeys_collectLinks extract items emptyLinks acc hcol]
      rfl
    | error e =>
      simp only [scrape_channel, scrape_channel_run, hcol]
      rfl

theorem bucketKeys_scrape_all (extract : Extractor) (fetches : List FetchResult)
    (order : List Nat) :
    bucketKeys (scrape_all_channels extract fetches order) = protocols := by
  simp only [scrape_all_channels]
  rw [bucketKeys_deduplicate, bucketKeys_foldl_extendAll]
  rfl

/-! ## Lemmas on stripping and the channel list reader -/

theorem dropWhile_head_false (p : Char → Bool) :
    ∀ (l : List Char) (h : Char) (t : List Char),
      l.dropWhile p = h :: t → p h = false := by
  intro l
  induction l with
  | nil => intro h t hd; cases hd
  | cons a rest ih =>
    intro h t hd
    rw [List.dropWhile_cons] at hd
    by_cases ha : p a = true
    · rw [if_pos ha] at hd
      exact ih h t hd
    · rw [if_neg ha] at hd
      cases hd
      exact Bool.not_eq_true _ |>.mp ha

theorem dropWhile_dropWhile (p : Char → Bool) (l : List Char) :
    (l.dropWhile p).dropWhile p = l.dropWhile p := by
  cases hd : l.dropWhile p with
  | nil => rfl
  | cons h t =>
    have hph := dropWhile_head_false p l h t hd
    rw [List.dropWhile_cons, hph]
    simp

theorem strip_left_clean (p : Char → Bool) (l : List Char) :
    (((l.dropWhile p).reverse.dropWhile p).reverse).dropWhile p =
      ((l.dropWhile p).reverse.dropWhile p).reverse := by
  have hsplit : (l.dropWhile p).reverse.takeWhile p ++ (l.dropWhile p).reverse.dropWhile p
      = (l.dropWhile p).reverse := List.takeWhile_append_dropWhile p _
  cases hB : ((l.dropWhile p).reverse.dropWhile p).reverse with
  | nil => rfl
  | cons h t =>
    have hA : l.dropWhile p
        = ((l.dropWhile p).reverse.dropWhile p).reverse
          ++ ((l.dropWhile p).reverse.takeWhile p).reverse := by
      calc l.dropWhile p = (l.dropWhile p).reverse.reverse := (List.reverse_reverse _).symm
        _ = ((l.dropWhile p).reverse.takeWhile p
              ++ (l.dropWhile p).reverse.dropWhile p).reverse := by rw [hsplit]
        _ = _ := by rw [List.reverse_append]
    rw [hB, List.cons_append] at hA
    have hph := dropWhile_head_false p l h _ hA
    rw [List.dropWhile_cons, hph]
    simp

theorem stripChars_dropWhile (l : List Char) :
    (stripChars l).dropWhile Char.isWhitespace = stripChars l :=
  strip_left_clean Char.isWhitespace l

theorem stripChars_reverse_dropWhile (l : List Char) :
    (stripChars l).reverse.dropWhile Char.isWhitespace = (stripChars l).reverse := by
  unfold stripChars
  rw [List.reverse_reverse]
  exact dropWhile_dropWhile _ _

theorem stripChars_idem (l : List Char) : stripChars (stripChars l) = stripChars l := by
  show (((stripChars l).dropWhile Char.isWhitespace).reverse.dropWhile
    Char.isWhitespace).reverse = stripChars l
  rw [stripChars_dropWhile, stripChars_reverse_dropWhile, List.reverse_reverse]

theorem pyStrip_idem (s : String) : pyStrip (pyStrip s) = pyStrip s :=
  congrArg String.mk (stripChars_idem s.data)

theorem pyStrip_all_whitespace (s : String) (h : ∀ c ∈ s.data, c.isWhitespace) :
    pyStrip s = "" := by
  have h1 : s.data.dropWhile Char.isWhitespace = [] :=
    List.dropWhile_eq_nil_iff.mpr h
  show String.mk (stripChars s.data) = ""
  unfold stripChars
  rw [h1]
  rfl

theorem read_channels_ok_eq (lines : List String) :
    read_channels_from_file (.ok lines)
      = (lines.filter (fun l => ¬ pyStrip l = "")).map pyStrip := by
  induction lines with
  | nil => rfl
  | cons l rest ih =>
    by_cases hl : pyStrip l = "" <;>
      simp_all [read_channels_from_file, List.filterMap_cons, List.filter_cons, hl]

theorem totalLinks_eq_zero (b : LinkBucket) (h : ∀ e ∈ b, e.2 = []) :
    totalLinks b = 0 := by
  unfold totalLinks
  apply List.sum_eq_zero
  intro x hx
  rcases List.mem_map.mp hx with ⟨e, he, rfl⟩
  rw [h e he]
  rfl

theorem lookupD_emptyLinks (p : String) : lookupD emptyLinks p = [] := by
  simp [emptyLinks, lookupD]

/-! ## Claims -/

/-- C1: for every fixed channel list and fixed per-channel extraction, the
aggregate of `scrape_all_channels` is, per protocol, the concatenation of the
per-channel sequences in channel submission order (failed channels contribute
nothing, their buckets being empty), followed by the global dedup pass — and
this holds for every completion order of the workers, so the result is
independent of the order in which they complete. -/
theorem scrape_all_channels_merge_order (extract : Extractor)
    (fetches : List FetchResult) (order : List Nat)
    (hperm : order.Perm (List.range fetches.length)) (p : String)
    (hp : p ∈ protocols) :
    lookupD (scrape_all_channels extract fetches order) p
      = dedupeFrom []
          ((fetches.map (fun f => lookupD (scrape_channel extract f) p)).flatten) := by
  simp only [scrape_all_channels]
  rw [lookupD_deduplicate,
    gatherRun_perm _ _ (by rw [List.length_map]; exact hperm),
    collectResults_map_some,
    lookupD_foldl_extendAll p _ emptyLinks hp,
    lookupD_emptyLinks, List.nil_append, List.map_map]
  rfl

/-- Witness for C1 at two channels, the second one failing, completion order
reversed. -/
theorem scrape_all_channels_merge_order_witness :
    lookupD
        (scrape_all_channels
          (fun c => Except.ok [("vmess", [c]), ("vless", []), ("ss", []), ("trojan", []), ("ssr", [])])
          [Except.ok [some "a", some "b"], Except.error "down"] [1, 0]) "vmess"
      = dedupeFrom []
          (([Except.ok [some "a", some "b"], Except.error "down"].map
            (fun f => lookupD
              (scrape_channel
                (fun c => Except.ok [("vmess", [c]), ("vless", []), ("ss", []), ("trojan", []), ("ssr", [])]) f)
              "vmess")).flatten) :=
  scrape_all_channels_merge_order _ _ [1, 0] (by decide) "vmess" (by decide)

/-- C2: `deduplicate_links` keeps, per protocol, each string at most once —
the result is duplicate-free, a sublist of the input with the same members,
and two kept strings compare in the output exactly as their first occurrences
compare in the input. -/
theorem deduplicate_links_first_occurrence (b : LinkBucket) (p : String) :
    (lookupD (deduplicate_links b) p).Nodup
    ∧ (lookupD (deduplicate_links b) p).Sublist (lookupD b p)
    ∧ (∀ s, s ∈ lookupD (deduplicate_links b) p ↔ s ∈ lookupD b p)
    ∧ (∀ a c, a ∈ lookupD (deduplicate_links b) p →
        c ∈ lookupD (deduplicate_links b) p →
        (firstIdx a (lookupD (deduplicate_links b) p)
            < firstIdx c (lookupD (deduplicate_links b) p)
          ↔ firstIdx a (lookupD b p) < firstIdx c (lookupD b p))) := by
  rw [lookupD_deduplicate]
  refine ⟨nodup_dedupeFrom [] _, sublist_dedupeFrom [] _, ?_, ?_⟩
  · intro s
    rw [mem_dedupeFrom]
    simp
  · intro a c ha hc
    exact firstIdx_lt_iff_dedupeFrom [] _ a c ha hc

/-- Witness for C2 on `["x", "y", "x"]`: the relative order of `x` and `y`
in the deduplicated list matches their first occurrences. -/
theorem deduplicate_links_first_occurrence_witness :
    firstIdx "x" (lookupD (deduplicate_links [("vmess", ["x", "y", "x"])]) "vmess")
        < firstIdx "y" (lookupD (deduplicate_links [("vmess", ["x", "y", "x"])]) "vmess")
      ↔ firstIdx "x" (lookupD [("vmess", ["x", "y", "x"])] "vmess")
        < firstIdx "y" (lookupD [("vmess", ["x", "y", "x"])] "vmess") :=
  (deduplicate_links_first_occurrence [("vmess", ["x", "y", "x"])] "vmess").2.2.2
    "x" "y" (by decide) (by decide)

/-- C3: `deduplicate_links` is idempotent, and on a bucket that is already
duplicate-free in every protocol it is the identity — so the global pass
leaves an already-duplicate-free merge unchanged. -/
theorem deduplicate_links_idempotent (b : LinkBucket) :
    deduplicate_links (deduplicate_links b) = deduplicate_links b
    ∧ ((∀ e ∈ b, e.2.Nodup) → deduplicate_links b = b) := by
  constructor
  · unfold deduplicate_links
    rw [List.map_map]
    apply List.map_congr_left
    intro e _
    show (e.1, dedupeFrom [] (dedupeFrom [] e.2)) = _
    rw [dedupeFrom_idem]
  · intro h
    conv_rhs => rw [← List.map_id b]
    apply List.map_congr_left
    intro e he
    exact Prod.ext rfl (dedupeFrom_eq_self [] e.2 (h e he) (by simp))

/-- Witness for C3: a duplicate-free bucket is left unchanged. -/
theorem deduplicate_links_idempotent_witness :
    deduplicate_links [("vmess", ["a", "b"]), ("vless", [])]
      = [("vmess", ["a", "b"]), ("vless", [])] :=
  (deduplicate_links_idempotent [("vmess", ["a", "b"]), ("vless", [])]).2 (by decide)

/-- C4: an error raised anywhere in fetching, extracting or deduplicating is
not propagated — `scrape_channel` returns the all-empty bucket — and the
per-channel outcome of every other channel is unchanged: outcome `j` depends
only on channel `j`'s own fetch. -/
theorem scrape_channel_failure_isolated :
    (∀ (extract : Extractor) (fetch : FetchResult) (e : String),
        scrape_channel_run extract fetch = .error e →
          scrape_channel extract fetch = emptyLinks)
    ∧ (∀ (extract : Extractor) (fetches fetches' : List FetchResult) (i : Nat),
        (∀ j, j ≠ i → fetches[j]? = fetches'[j]?) →
        ∀ j, j ≠ i →
          (fetches.map (scrape_channel extract))[j]? =
            (fetches'.map (scrape_channel extract))[j]?) := by
  constructor
  · intro extract fetch e h
    simp only [scrape_channel, h]
  · intro extract fetches fetches' i hagree j hj
    rw [List.getElem?_map, List.getElem?_map, hagree j hj]

/-- Witness for C4: a failed fetch yields the empty bucket, and changing
channel 1's fetch does not change channel 0's outcome slot. -/
theorem scrape_channel_failure_isolated_witness :
    scrape_channel (fun _ => Except.error "boom") (Except.error "network down")
        = emptyLinks
    ∧ ([Except.ok [], Except.error "a"].map
          (scrape_channel (fun _ => Except.error "boom")))[0]? =
        ([Except.ok [], Except.ok [some "x"]].map
          (scrape_channel (fun _ => Except.error "boom")))[0]? := by
  constructor
  · exact scrape_channel_failure_isolated.1 _ _ "network down" rfl
  · refine scrape_channel_failure_isolated.2 _ _ _ 1 ?_ 0 (by decide)
    intro j hj
    match j with
    | 0 => rfl
    | 1 => exact absurd rfl hj
    | n + 2 => rfl

/-- C5: a run whose aggregate has zero links in every protocol is a soft
stop: `main` emits only the warning — persistence, export and forwarding are
all skipped — and returns normally. -/
theorem main_zero_links_soft_stop (links : LinkBucket) (exportOnly : Bool)
    (h : ∀ e ∈ links, e.2 = []) :
    mainRun links exportOnly = [Action.warnZero]
    ∧ Action.warnZero ∈ mainRun links exportOnly
    ∧ Action.save ∉ mainRun links exportOnly
    ∧ Action.exportLinks ∉ mainRun links exportOnly
    ∧ Action.forward ∉ mainRun links exportOnly := by
  have h0 : totalLinks links = 0 := totalLinks_eq_zero links h
  have hrun : mainRun links exportOnly = [Action.warnZero] := by
    rw [mainRun, if_pos h0]
  refine ⟨hrun, ?_, ?_, ?_, ?_⟩ <;> rw [hrun] <;> simp

/-- Witness for C5 at the all-empty aggregate (all channels failed). -/
theorem main_zero_links_soft_stop_witness :
    mainRun emptyLinks false = [Action.warnZero] :=
  (main_zero_links_soft_stop emptyLinks false (by decide)).1

/-- C6: evaluation of the request `send_links` builds at a concrete aggregate.
The form-field metadata matches the claim (field `file`, filename
`links.txt`, content-type `text/plain`), but the body is the newline-join of
the Python `str` of each protocol's whole list — not the newline-joined
individual descriptor strings the claim (and spec §6) describe. -/
theorem send_links_request_body_not_flattened :
    send_links_request
        [("vmess", ["vmess://a", "vmess://b"]), ("vless", []), ("ss", []),
          ("trojan", []), ("ssr", [])]
      = FormField.mk "file" "links.txt" "text/plain"
          "[\x27vmess://a\x27, \x27vmess://b\x27]\n[]\n[]\n[]\n[]"
    ∧ spec_flattened_body
        [("vmess", ["vmess://a", "vmess://b"]), ("vless", []), ("ss", []),
          ("trojan", []), ("ssr", [])]
      = "vmess://a\nvmess://b"
    ∧ links_content
        [("vmess", ["vmess://a", "vmess://b"]), ("vless", []), ("ss", []),
          ("trojan", []), ("ssr", [])]
      ≠ spec_flattened_body
        [("vmess", ["vmess://a", "vmess://b"]), ("vless", []), ("ss", []),
          ("trojan", []), ("ssr", [])] := by
  refine ⟨rfl, rfl, ?_⟩
  decide

/-- C7: the response handling of `send_links` never propagates a failure: a
transport error or a non-2xx status logs and returns the empty result, and
HTTP 200 with a JSON body returns the parsed body. -/
theorem send_links_response_nonfatal :
    (∀ e : String, send_links_response (.error e) = ⟨none, true⟩)
    ∧ (∀ r : HttpResp, ¬(200 ≤ r.status ∧ r.status < 300) →
        send_links_response (.ok r) = ⟨none, true⟩)
    ∧ (∀ (r : HttpResp) (j : String), r.status = 200 → r.json = .ok j →
        send_links_response (.ok r) = ⟨some j, false⟩) := by
  refine ⟨fun e => rfl, ?_, ?_⟩
  · intro r hr
    simp only [send_links_response]
    rw [if_neg (fun h200 : r.status = 200 => hr (by omega))]
  · intro r j h200 hj
    simp only [send_links_response]
    rw [if_pos h200, hj]

/-- Witness for C7: a 500 and a transport error both yield the empty result
with a logged error; a 200 with JSON body `null` yields the parsed body. -/
theorem send_links_response_nonfatal_witness :
    send_links_response (Except.ok (HttpResp.mk 500 (Except.error "html"))) = ⟨none, true⟩
    ∧ send_links_response (Except.error "timeout") = ⟨none, true⟩
    ∧ send_links_response (Except.ok (HttpResp.mk 200 (Except.ok "null"))) = ⟨some "null", false⟩ :=
  ⟨send_links_response_nonfatal.2.1 (HttpResp.mk 500 (Except.error "html")) (by decide),
    send_links_response_nonfatal.1 "timeout",
    send_links_response_nonfatal.2.2 (HttpResp.mk 200 (Except.ok "null")) "null" rfl rfl⟩

/-- C8: `read_channels_from_file` returns one identifier per non-blank line
(the stripped form of every line whose stripped form is non-empty), a blank
line contributes nothing, and a missing or unreadable file yields `[]`rather
than raising. -/
theorem read_channels_file_behaviour :
    (∀ e : String, read_channels_from_file (.error e) = [])
    ∧ (∀ lines : List String,
        read_channels_from_file (.ok lines)
          = (lines.filter (fun l => ¬ pyStrip l = "")).map pyStrip)
    ∧ (∀ (pre post : List String) (bl : String), pyStrip bl = "" →
        read_channels_from_file (.ok (pre ++ bl :: post))
          = read_channels_from_file (.ok (pre ++ post))) := by
  refine ⟨fun e => rfl, read_channels_ok_eq, ?_⟩
  intro pre post bl hbl
  simp only [read_channels_from_file]
  rw [List.filterMap_append, List.filterMap_append, List.filterMap_cons, if_pos hbl]

/-- Witness for C8: a whitespace-only line between two channels is ignored. -/
theorem read_channels_file_behaviour_witness :
    read_channels_from_file (.ok (["chanA"] ++ "   " :: ["chanB"]))
      = read_channels_from_file (.ok (["chanA"] ++ ["chanB"])) :=
  read_channels_file_behaviour.2.2 ["chanA"] ["chanB"] "   " (by decide)

/-- C9: every bucket `scrape_channel` returns (success or failure) and every
aggregate `scrape_all_channels` returns carries exactly the five protocol
keys, in order, whatever the extractor, the fetches and the completion order
do. -/
theorem bucket_keys_invariant (extract : Extractor) (fetch : FetchResult)
    (fetches : List FetchResult) (order : List Nat) :
    bucketKeys (scrape_channel extract fetch)
        = ["vmess", "vless", "ss", "trojan", "ssr"]
    ∧ bucketKeys (scrape_all_channels extract fetches order)
        = ["vmess", "vless", "ss", "trojan", "ssr"] :=
  ⟨bucketKeys_scrape_channel extract fetch,
    bucketKeys_scrape_all extract fetches order⟩

/-- C10: every identifier `read_channels_from_file` returns is its own
stripped form (no surrounding whitespace survives), and a file of
whitespace-only lines yields nothing. -/
theorem read_channels_strip_behaviour :
    (∀ (file : Except String (List String)) (c : String),
        c ∈ read_channels_from_file file → pyStrip c = c)
    ∧ (∀ lines : List String,
        (∀ l ∈ lines, ∀ ch ∈ l.data, ch.isWhitespace) →
        read_channels_from_file (.ok lines) = []) := by
  constructor
  · intro file c hc
    match file with
    | .error e => simp [read_channels_from_file] at hc
    | .ok lines =>
      simp only [read_channels_from_file] at hc
      rcases List.mem_filterMap.mp hc with ⟨l, _, hfl⟩
      by_cases h : pyStrip l = ""
      · rw [if_pos h] at hfl
        cases hfl
      · rw [if_neg h] at hfl
        cases hfl
        exact pyStrip_idem l
  · intro lines h
    simp only [read_channels_from_file]
    refine List.filterMap_eq_nil_iff.mpr (fun l hl => ?_)
    rw [if_pos (pyStrip_all_whitespace l (h l hl))]

/-- Witness for C10: a padded identifier comes back stripped, and an
all-whitespace file yields no channels. -/
theorem read_channels_strip_behaviour_witness :
    pyStrip "chanA" = "chanA"
    ∧ read_channels_from_file (.ok [" ", "\t"]) = [] :=
  ⟨read_channels_strip_behaviour.1 (.ok ["  chanA "]) "chanA" (by decide),
    read_channels_strip_behaviour.2 [" ", "\t"] (by decide)⟩

end RayLink
